import Mathlib

/-!
Verification of `redis_structures` (jaredLunde/redis_structures) against its
natural-language specification.

This file shallowly embeds the parts of `redis_structures/__init__.py` that the
frozen claims are about.  The Redis server itself and the pluggable serializer
are external collaborators; their primitive commands (LRANGE, LINSERT, ZRANGE,
HINCRBY, ...) are modelled with their documented semantics, and the JSON
serializer is modelled on the value domain the claims exercise (strings and
integers).  Python values travelling through the library are modelled by `RVal`;
raw stored byte strings are modelled by `String` (responses are decoded text,
matching `decode_responses=True`).
-/

namespace RedisStructures

/-- Decidable equality for `Except`, used to evaluate models on concrete
inputs. -/
instance instDecEqExcept {ε α : Type} [DecidableEq ε] [DecidableEq α] :
    DecidableEq (Except ε α) := fun x y =>
  match x, y with
  | .error a, .error b =>
    if h : a = b then .isTrue (congrArg Except.error h)
    else .isFalse fun hh => h (Except.error.inj hh)
  | .ok a, .ok b =>
    if h : a = b then .isTrue (congrArg Except.ok h)
    else .isFalse fun hh => h (Except.ok.inj hh)
  | .error _, .ok _ => .isFalse fun hh => Except.noConfusion hh
  | .ok _, .error _ => .isFalse fun hh => Except.noConfusion hh

/-! ## Key addressing (`BaseRedisStructure.key_prefix`, `_hashed_key`,
`RedisDict._bucket_key`) -/

/-- Python `s.rstrip(":")`, on the character list of the string. -/
def rstripColons (s : String) : String :=
  ⟨(s.data.reverse.dropWhile fun c => c = ':').reverse⟩

/-- `BaseRedisStructure.key_prefix`: the constructor stores
`self.prefix = prefix.rstrip(":")`; the property returns
`"{}:{}".format(self.prefix.rstrip(":"), self.name).rstrip(":")`.
`pfx` here is the stored (already right-stripped) prefix field. -/
def keyPfx (pfx name : String) : String :=
  rstripColons (rstripColons pfx ++ ":" ++ name)

/-- `BaseRedisStructure._hashed_key`:
`abs(int(md5(key_prefix.encode('utf8')).hexdigest(), 16)) % 10 ** size_mod`.
MD5 comes from the external `hashlib` collaborator and is passed in as
`md5int`, the "MD5 digest read as a (non-negative) integer" function; `abs`
is the identity on it. -/
def hashedKey (md5int : String → Nat) (kp : String) (sizeMod : Nat) : Nat :=
  md5int kp % 10 ^ sizeMod

/-- `RedisDict._bucket_key`:
`"{}.size.{}".format(self.prefix, (h//1000) if h > 1000 else h)` where
`h = self._hashed_key`. -/
def bucketKey (md5int : String → Nat) (pfx name : String) (sizeMod : Nat) :
    String :=
  let h := hashedKey md5int (keyPfx pfx name) sizeMod
  pfx ++ ".size." ++ toString (if h > 1000 then h / 1000 else h)

/-- The bucket key as the spec describes it: the stable non-negative integer
hash of the key prefix, reduced modulo `10^size_mod`, collapsed by integer
division by 1000 exactly when the reduced value is greater than 1000, and
formatted as `<structure-namespace>.size.<shard>`. -/
def specBucketKey (md5int : String → Nat) (pfx name : String) (sizeMod : Nat) :
    String :=
  let s := md5int (keyPfx pfx name) % 10 ^ sizeMod
  let collapsed := if 1000 < s then s / 1000 else s
  pfx ++ ".size." ++ toString collapsed

/-! ## Container kinds and their default namespaces (the `prefix=` keyword
defaults of each `__init__`) -/

inductive ContainerKind
  | map | dict | defaultdict | hash | defaulthash | list | rset | sortedset
deriving DecidableEq

/-- The default `prefix` keyword argument of each container class
constructor. -/
def defaultPfx : ContainerKind → String
  | .map => "rs:map"               -- RedisMap.__init__
  | .dict => "rs:dict"             -- RedisDict.__init__
  | .defaultdict => "rs:defaultdict" -- RedisDefaultDict.__init__
  | .hash => "rs:hash"             -- RedisHash.__init__
  | .defaulthash => "rs:dict"      -- RedisDefaultHash.__init__ (sic)
  | .list => "rs:list"             -- RedisList.__init__
  | .rset => "rs:set"              -- RedisSet.__init__
  | .sortedset => "rs:sorted_set"  -- RedisSortedSet.__init__

/-! ## Values, client encoding, and the JSON serializer model -/

/-- Python values flowing through the library, restricted to the domain the
claims exercise: text strings and integers. -/
inductive RVal
  | rstr : String → RVal
  | rint : Int → RVal
deriving DecidableEq

/-- Decimal rendering of a natural number (structural fuel recursion, so it
evaluates by reduction; the fuel `n + 1` always suffices). -/
def natToStrAux : Nat → Nat → List Char
  | 0, _ => []
  | fuel + 1, n =>
    if n < 10 then [Char.ofNat (48 + n)]
    else natToStrAux fuel (n / 10) ++ [Char.ofNat (48 + n % 10)]

def natToStr (n : Nat) : String := ⟨natToStrAux (n + 1) n⟩

/-- Python `str()` / `repr()` of an integer. -/
def intToStr : Int → String
  | .ofNat m => natToStr m
  | .negSucc m => ⟨'-' :: (natToStr (m + 1)).data⟩

/-- How the external redis client (`redis-py`) encodes a Python value into the
raw bytes it sends: strings go through verbatim, integers via `repr`. -/
def clientEnc : RVal → String
  | .rstr s => s
  | .rint n => intToStr n

/-- `json.dumps` on the modelled value domain: strings are quoted, integers
are printed canonically. -/
def jsonDumps : RVal → String
  | .rstr s => "\"" ++ s ++ "\""
  | .rint n => intToStr n

/-- Digit-run parser: `some` exactly on non-empty all-digit character runs. -/
def parseDigits : List Char → Option Nat
  | [] => none
  | ds =>
    if ds.all fun c => c.isDigit then
      some (ds.foldl (fun a c => a * 10 + (c.toNat - 48)) 0)
    else none

/-- Integer literal parser (an optional sign followed by digits). -/
def parseIntChars : List Char → Option Int
  | '-' :: ds => (parseDigits ds).map fun n => -(n : Int)
  | ds => (parseDigits ds).map fun n => (n : Int)

/-- `json.loads` on the modelled domain: a quoted string or an integer
literal.  `none` models the `ValueError` the Python parser raises on
anything else. -/
def jsonLoads (s : String) : Option RVal :=
  match s.data with
  | '"' :: c :: rest =>
    if (c :: rest).getLast? = some '"' then some (.rstr ⟨(c :: rest).dropLast⟩)
    else none
  | cs => (parseIntChars cs).map fun n => .rint n

/-- `BaseRedisStructure._loads` for a list/map element: with serialization the
serializer parses the raw string (failure raises); without it,
`_decode` returns the text unchanged. -/
def loadsL (serialized : Bool) (raw : String) : Option RVal :=
  if serialized then jsonLoads raw else some (.rstr raw)

/-- What actually lands in the store when the library writes value `v`:
`_dumps` followed by the client encoding.  With serialization this is the
JSON text, without it the raw client encoding. -/
def encW (serialized : Bool) (v : RVal) : String :=
  if serialized then jsonDumps v else clientEnc v

/-- Python truthiness of a modelled value (what `assert result` tests). -/
def truthy : RVal → Bool
  | .rstr s => s != ""
  | .rint n => n != 0

/-! ## RedisMap over the plain string keyspace (`__setitem__`/`__getitem__`,
serialized instance) -/

/-- The flat redis string keyspace, as an association list. -/
def storeSet (st : List (String × String)) (k v : String) :
    List (String × String) :=
  (k, v) :: st.filter fun p => p.1 ≠ k

def storeGet (st : List (String × String)) (k : String) : Option String :=
  (st.find? fun p => p.1 = k).map Prod.snd

/-- `RedisMap.get_key`: `"{}:{}".format(self.key_prefix, key)`. -/
def mapGetKey (pfx name k : String) : String := keyPfx pfx name ++ ":" ++ k

/-- `RedisMap.__setitem__`: `self._client.set(self.get_key(key),
self._dumps(value))`, serialized instance. -/
def redisMapSet (pfx name : String) (st : List (String × String))
    (k : String) (v : RVal) : List (String × String) :=
  storeSet st (mapGetKey pfx name k) (jsonDumps v)

/-- `RedisMap.__getitem__`:
`result = self._loads(self._client.get(self.get_key(key))); assert result`;
`AssertionError`/`TypeError` become `KeyError`, while a JSON parse failure
(`ValueError`) propagates as-is. -/
def redisMapGet (pfx name : String) (st : List (String × String))
    (k : String) : Except String RVal :=
  match storeGet st (mapGetKey pfx name k) with
  | none => .error "KeyError"
  | some raw =>
    match jsonLoads raw with
    | none => .error "ValueError"
    | some v => if truthy v then .ok v else .error "KeyError"

/-! ## Redis list primitives (external store collaborator).
Negative indices count from the tail; LRANGE clamps exactly as the server
does: a negative start is clamped to 0 after conversion, a stop beyond the
end is clamped to the last element, and a still-negative stop makes the
range empty. -/

/-- LINDEX. -/
def lindex (l : List String) (i : Int) : Option String :=
  let j := if i < 0 then (l.length : Int) + i else i
  if 0 ≤ j then l.get? j.toNat else none

/-- LSET; `none` models the "index out of range" server error. -/
def lset (l : List String) (i : Int) (v : String) : Option (List String) :=
  let j := if i < 0 then (l.length : Int) + i else i
  if 0 ≤ j ∧ j < l.length then some (l.set j.toNat v) else none

/-- LINSERT ... BEFORE pivot value: inserts before the first occurrence of
the pivot, and leaves the list unchanged when the pivot is absent. -/
def linsertBefore : List String → String → String → List String
  | [], _, _ => []
  | x :: xs, pivot, v =>
    if x = pivot then v :: x :: xs else x :: linsertBefore xs pivot v

/-- LREM with count 0: removes every occurrence of the value. -/
def lremAll (l : List String) (v : String) : List String :=
  l.filter fun x => x ≠ v

/-- RPOP. -/
def rpopL (l : List String) : Option String × List String :=
  match l.getLast? with
  | none => (none, [])
  | some x => (some x, l.dropLast)

/-- LPOP. -/
def lpopL : List String → Option String × List String
  | [] => (none, [])
  | x :: xs => (some x, xs)

/-- LRANGE / ZRANGE index clamping (polymorphic so it also serves sorted-set
rank ranges). -/
def redisRange (l : List α) (start stop : Int) : List α :=
  let n : Int := l.length
  let s0 := if start < 0 then n + start else start
  let e0 := if stop < 0 then n + stop else stop
  let s1 := if s0 < 0 then 0 else s0
  let e1 := if e0 ≥ n then n - 1 else e0
  if s1 > e1 ∨ s1 ≥ n then []
  else (l.drop s1.toNat).take (e1 - s1 + 1).toNat

/-! ## RedisList operations -/

/-- `RedisList.__getitem__` with an integer index:
`self._loads(self._client.lindex(self.key_prefix, index))`.
An out-of-range index yields `.ok none` (LINDEX returns nil and `_loads`
passes `None` through); a present element that the serializer cannot parse
raises (`.error`). -/
def getAt (serialized : Bool) (l : List String) (i : Int) :
    Except String (Option RVal) :=
  match lindex l i with
  | none => .ok none
  | some raw =>
    match loadsL serialized raw with
    | some v => .ok (some v)
    | none => .error "ValueError"

/-- `RedisList.insert(index, value)`: read the current element, overwrite the
index with a fresh sentinel (`gen_rand_str`, passed in as `sentinel`), then in
one transactional pipeline insert `dumps(value)` before the sentinel and the
*already deserialized* previous element (`item_at_index`, client-encoded, not
re-dumped) before the sentinel again, and finally LREM the sentinel away. -/
def insertOp (serialized : Bool) (sentinel : String) (l : List String)
    (i : Int) (v : RVal) : Except String (List String) :=
  match lindex l i with
  | none => .error "ResponseError: index out of range"
  | some raw =>
    match loadsL serialized raw with
    | none => .error "ValueError"
    | some item =>
      match lset l i (encW serialized (.rstr sentinel)) with
      | none => .error "ResponseError: index out of range"
      | some l1 =>
        let pivot := encW serialized (.rstr sentinel)
        let l2 := linsertBefore l1 pivot (encW serialized v)
        let l3 := linsertBefore l2 pivot (clientEnc item)
        .ok (lremAll l3 pivot)

/-- `RedisList.pop(index=None)`: RPOP for `None`, LPOP for `0`, and the
sentinel swap-and-remove for any other index. -/
def listPop (serialized : Bool) (sentinel : String) (l : List String)
    (index : Option Int) : Except String (Option RVal × List String) :=
  match index with
  | none =>
    match rpopL l with
    | (none, l') => .ok (none, l')
    | (some raw, l') =>
      match loadsL serialized raw with
      | some v => .ok (some v, l')
      | none => .error "ValueError"
  | some 0 =>
    match lpopL l with
    | (none, l') => .ok (none, l')
    | (some raw, l') =>
      match loadsL serialized raw with
      | some v => .ok (some v, l')
      | none => .error "ValueError"
  | some i =>
    match getAt serialized l i with
    | .error e => .error e
    | .ok rv =>
      match lset l i (encW serialized (.rstr sentinel)) with
      | none => .error "ResponseError: index out of range"
      | some l1 => .ok (rv, lremAll l1 (encW serialized (.rstr sentinel)))

/-! ## `RedisList.reverse` -/

/-- `Option`-valued `mapM`, written out so its algebra stays elementary. -/
def optMapM (f : α → Option β) : List α → Option (List β)
  | [] => some []
  | x :: xs =>
    match f x, optMapM f xs with
    | some y, some ys => some (y :: ys)
    | _, _ => none

/-- One page of `reverse`: `tmp_list.extend(map(_loads, reversed(cursor)))`.
Each raw element is deserialized and, on the extend, re-encoded for the
temporary list (which inherits the serializer of the source list). -/
def pageOut (serialized : Bool) (c : List String) : Option (List String) :=
  optMapM (fun x => (loadsL serialized x).map (encW serialized)) c.reverse

/-- The `while cursor:` loop of `RedisList.reverse`, reading windows
`lrange(start, stop)` with both bounds moving down by the page size 1000
until a window comes back empty.  Fuel bounds the recursion; `reverseOp`
supplies enough for the loop to reach its empty window. -/
def revLoop (serialized : Bool) (l : List String) (start stop : Int) :
    Nat → Option (List String)
  | 0 => some []
  | fuel + 1 =>
    let c := redisRange l start stop
    if c.isEmpty then some []
    else
      match pageOut serialized c, revLoop serialized l (start - 1000) (stop - 1000) fuel with
      | some page, some rest => some (page ++ rest)
      | _, _ => none

/-- `RedisList.reverse()`: build the reversed content in a temporary list,
then RENAME it over the source key.  When the source list is empty no page is
ever pushed, the temporary key never exists, and RENAME raises
`ResponseError: no such key`; a page element the serializer cannot parse
raises during the loop. -/
def reverseOp (serialized : Bool) (l : List String) :
    Except String (List String) :=
  match revLoop serialized l (-1000) (-1) (l.length / 1000 + 2) with
  | none => .error "ValueError"
  | some out =>
    if out.isEmpty then .error "ResponseError: no such key" else .ok out

/-! ## RedisDict: element keys plus the shared bucket counter.

Element keys are modelled directly (within one instance `get_key` is an
injective decoration of the element key, so the decoration is dropped);
`bucket` is the value of the instance's field inside the shared bucket hash,
`none` when the field is absent. -/

structure DictState where
  keys : Finset String
  val : String → String
  bucket : Option Int

def emptyDict : DictState := ⟨∅, fun _ => "", none⟩

/-- HINCRBY treats an absent field as 0 and always leaves the field set. -/
def hincrby (b : Option Int) (n : Int) : Option Int := some (b.getD 0 + n)

/-- `RedisDict.size`: `int(self._client.hget(self._bucket_key, self.key_prefix) or 0)`. -/
def dictSize (s : DictState) : Int := s.bucket.getD 0

/-- The write operations of the claim: `__setitem__`, `__delitem__`, and the
bulk `update` (values already serialized to raw strings). -/
inductive DOp
  | set (k v : String)
  | del (k : String)
  | upd (kvs : List (String × String))

/-- A bulk `update` is fed a Python `dict`, whose keys are distinct. -/
def WFOp : DOp → Prop
  | .upd kvs => (kvs.map Prod.fst).Nodup
  | _ => True

/-- One RedisDict write.
`__setitem__`: pipeline `[SET element, HINCRBY bucket +1 if key was absent]`,
the existence check running just before the pipeline.
`__delitem__`: pipeline `[DEL element, HINCRBY bucket -1 if key was present]`.
`update`: EXISTS for every key, MSET all pairs, then one
`HINCRBY bucket (len(data) - number_preexisting)`; an empty mapping returns
without touching the store. -/
def applyOp (s : DictState) : DOp → DictState
  | .set k v =>
    { keys := insert k s.keys
      val := Function.update s.val k v
      bucket := if k ∈ s.keys then s.bucket else hincrby s.bucket 1 }
  | .del k =>
    { keys := s.keys.erase k
      val := s.val
      bucket := if k ∈ s.keys then hincrby s.bucket (-1) else s.bucket }
  | .upd kvs =>
    if kvs.isEmpty then s
    else
      { keys := s.keys ∪ (kvs.map Prod.fst).toFinset
        val := kvs.foldl (fun f kv => Function.update f kv.1 kv.2) s.val
        bucket := hincrby s.bucket
          ((kvs.length : Int) -
            ((kvs.map Prod.fst).countP fun k => decide (k ∈ s.keys))) }

def runOps (ops : List DOp) (s : DictState) : DictState := ops.foldl applyOp s

/-- Spec-side bookkeeping: after the sequence, is `k` a key whose most recent
operation was a set (directly or inside a bulk update) and that was not
subsequently deleted? -/
def presStep (k : String) (b : Bool) : DOp → Bool
  | .set k' _ => if k' = k then true else b
  | .del k' => if k' = k then false else b
  | .upd kvs => if k ∈ kvs.map Prod.fst then true else b

def specPresent (ops : List DOp) (k : String) : Bool :=
  ops.foldl (presStep k) false

/-- The keys an operation mentions. -/
def opKeys : DOp → Finset String
  | .set k _ => {k}
  | .del k => {k}
  | .upd kvs => (kvs.map Prod.fst).toFinset

/-- All keys mentioned anywhere in the sequence. -/
def touched : List DOp → Finset String
  | [] => ∅
  | op :: ops => opKeys op ∪ touched ops

/-- The counter invariant: the bucket field (0 when absent) equals the number
of present element keys. -/
def DictInv (s : DictState) : Prop := s.bucket.getD 0 = (s.keys.card : Int)

/-! ## RedisDict per-key TTL methods (claim C7).

The six overridden methods raise `AttributeError` unconditionally.  `psetex`
is *inherited* from `RedisMap` unchanged:
`self._client.psetex(self.get_key(key), ttl, self._dumps(value))`, which
writes the element (with a millisecond TTL, tracked in `pttls`) and never
touches the bucket counter. -/

def rdTtl (_s : DictState) (_k : String) : Except String Int :=
  .error "AttributeError: RedisDict does not support ttl"

def rdPttl (_s : DictState) (_k : String) : Except String Int :=
  .error "AttributeError: RedisDict does not support pttl"

def rdSetTtl (_s : DictState) (_k : String) (_ttl : Int) :
    Except String DictState :=
  .error "AttributeError: RedisDict does not support set_ttl"

def rdSetPttl (_s : DictState) (_k : String) (_ttl : Int) :
    Except String DictState :=
  .error "AttributeError: RedisDict does not support set_pttl"

def rdExpireAt (_s : DictState) (_k : String) (_time : Int) :
    Except String DictState :=
  .error "AttributeError: RedisDict does not support expire_at"

def rdSetex (_s : DictState) (_k _v : String) (_ttl : Int) :
    Except String DictState :=
  .error "AttributeError: RedisDict does not support setex"

def rdPsetex (s : DictState) (pttls : List (String × Int)) (k v : String)
    (ttl : Int) : Except String (DictState × List (String × Int)) :=
  .ok ({ keys := insert k s.keys
         val := Function.update s.val k v
         bucket := s.bucket },
       (k, ttl) :: pttls.filter fun p => p.1 ≠ k)

/-! ## `BaseRedisStructure._loads` error handling (claim C8).

The pluggable serializer is an external collaborator; its `loads` is passed
in as a function returning either a value or one of the error kinds the
Python code can see.  `_decode` is the identity here (responses are already
decoded text). -/

inductive SerErr
  | typeErr | unpicklingErr | valueErr
deriving DecidableEq

/-- Python `str.isdigit`: non-empty and all digits. -/
def pyIsdigit (s : String) : Bool :=
  !s.data.isEmpty && s.data.all fun c => c.isDigit

/-- `BaseRedisStructure._loads` for a serialized structure:
a `TypeError` retries on the decoded text (the identity here) and whatever
the retry does propagates; a `pickle.UnpicklingError` falls back to the
decoded text when it `isdigit()`s and is re-raised otherwise; a `ValueError`
(for example from `json.loads`) is not caught at all. -/
def loadsSer (sl : String → Except SerErr RVal) (s : String) :
    Except SerErr RVal :=
  match sl s with
  | .ok v => .ok v
  | .error .typeErr => sl s
  | .error .unpicklingErr =>
    if pyIsdigit s then .ok (.rstr s) else .error .unpicklingErr
  | .error .valueErr => .error .valueErr

/-- Does the first character list lead (start) the second? -/
def strLeads : List Char → List Char → Bool
  | [], _ => true
  | _, [] => false
  | x :: xs, y :: ys => x = y && strLeads xs ys

/-- A concrete pickle-like serializer model: it only parses its own framed
payloads, and anything else (in particular the plain numeric strings `INCR`
writes) raises an unpickling error. -/
def pickleModelLoads (s : String) : Except SerErr RVal :=
  if strLeads "pickle:".data s.data then .ok (.rstr ⟨s.data.drop 7⟩)
  else .error .unpicklingErr

/-! ## RedisSortedSet (claim C6).

Content is an association list of `(member, score)` pairs (members unique).
Rank order is by score, ties broken lexicographically on the member — the
server's ordering.  Scores are modelled as integers and the default
`cast=float` as the identity on them; the unserialized instance is modelled
(serialization of member names is orthogonal to the dispatch claim). -/

def zRel (a b : String × Int) : Prop :=
  a.2 < b.2 ∨ (a.2 = b.2 ∧ a.1 ≤ b.1)

instance : DecidableRel zRel := fun a b => by
  unfold zRel; infer_instance

/-- The members in rank order; an instance-level `reversed=True` flips the
direction every range read and rank consults. -/
def rankedMembers (rev : Bool) (z : List (String × Int)) : List String :=
  let sorted := (List.insertionSort zRel z).map Prod.fst
  if rev then sorted.reverse else sorted

/-- ZSCORE. -/
def zscore (z : List (String × Int)) (m : String) : Option Int :=
  (z.find? fun p => p.1 = m).map Prod.snd

/-- The shape of the `__getitem__` argument: a slice (start/stop, `None`
allowed) or a scalar member name. -/
inductive ZKey
  | zslice (start stop : Option Int)
  | zmember (m : String)

inductive ZRes
  | members : List String → ZRes
  | score : Int → ZRes
deriving DecidableEq

/-- `stop = member.stop - 1 if member.stop else -1`: the falsy test sends
both `None` and the literal 0 to the whole-tail stop `-1`. -/
def sliceStop : Option Int → Int
  | none => -1
  | some x => if x = 0 then -1 else x - 1

/-- `RedisSortedSet.__getitem__`: a slice dispatches to
`iter(start=member.start if member.start else 0, stop=sliceStop)` (a ZRANGE
over ranks; `member.start if member.start else 0` is `getD 0` since `None`
and 0 both yield 0); anything else is a member lookup, `cast(zscore(...))`,
where `cast(None)` raises `TypeError`, surfaced as `KeyError`. -/
def ssGetItem (rev : Bool) (z : List (String × Int)) : ZKey → Except String ZRes
  | .zslice a b =>
    .ok (.members (redisRange (rankedMembers rev z) (a.getD 0) (sliceStop b)))
  | .zmember m =>
    match zscore z m with
    | some sc => .ok (.score sc)
    | none => .error "KeyError"

/-- Python list slicing `l[a:b]` (step 1), the spec-side meaning of "the
members occupying that rank range". -/
def pySlice (l : List α) (a b : Option Int) : List α :=
  let n : Int := l.length
  let s := match a with
    | none => 0
    | some x => if x < 0 then max (n + x) 0 else min x n
  let e := match b with
    | none => n
    | some x => if x < 0 then max (n + x) 0 else min x n
  (l.drop s.toNat).take (e - s).toNat

/-! # Theorems -/

/-! ## Helper lemmas about the list primitives -/

lemma lindex_nat (l : List String) (i : Nat) : lindex l i = l.get? i := by
  unfold lindex
  have h0 : ¬((i : Int) < 0) := by omega
  simp [h0]

lemma lset_nat (l : List String) (i : Nat) (v : String) (hi : i < l.length) :
    lset l i v = some (l.set i v) := by
  unfold lset
  have h0 : ¬((i : Int) < 0) := by omega
  have h2 : (i : Int) < (l.length : Int) := by exact_mod_cast hi
  simp [h0, h2]

lemma linsertBefore_append (a b : List String) (pivot v : String)
    (ha : pivot ∉ a) :
    linsertBefore (a ++ pivot :: b) pivot v = a ++ v :: pivot :: b := by
  induction a with
  | nil => simp [linsertBefore]
  | cons x xs ih =>
    have hx : x ≠ pivot := fun h => ha (h ▸ List.mem_cons_self x xs)
    simp only [List.cons_append, linsertBefore, if_neg hx, List.append_eq]
    rw [ih fun h => ha (List.mem_cons_of_mem _ h)]

lemma lremAll_of_not_mem (c : List String) (pivot : String) (hc : pivot ∉ c) :
    lremAll c pivot = c := by
  unfold lremAll
  rw [List.filter_eq_self]
  intro a hmem
  simp only [decide_eq_true_eq]
  exact fun h => hc (h ▸ hmem)

lemma lremAll_shape (A B : List String) (x y pivot : String)
    (hA : pivot ∉ A) (hB : pivot ∉ B) (hx : x ≠ pivot) (hy : y ≠ pivot) :
    lremAll (A ++ x :: y :: pivot :: B) pivot = A ++ x :: y :: B := by
  unfold lremAll
  rw [List.filter_append]
  have hAf : List.filter (fun z => z ≠ pivot) A = A := lremAll_of_not_mem A pivot hA
  have hBf : List.filter (fun z => z ≠ pivot) B = B := lremAll_of_not_mem B pivot hB
  rw [hAf, List.filter_cons_of_pos (by simp [hx]),
    List.filter_cons_of_pos (by simp [hy]),
    List.filter_cons_of_neg (by simp), hBf]

/-- Claim C3 (code bug): writing a falsy value with `RedisMap.__setitem__` and
reading it back with `RedisMap.__getitem__` should return the value without a
`KeyError`; evaluating the embedded code at the failing input (key `"k"`,
value `0`, serialized instance) shows the value is stored and decodable, yet
`assert result` misclassifies it and `__getitem__` raises `KeyError`. -/
theorem redisMap_falsy_roundtrip_raises :
    storeGet (redisMapSet "rs:map" "t" [] "k" (.rint 0))
      (mapGetKey "rs:map" "t" "k") = some "0" ∧
    jsonLoads "0" = some (.rint 0) ∧
    redisMapGet "rs:map" "t" (redisMapSet "rs:map" "t" [] "k" (.rint 0)) "k" =
      .error "KeyError" := by
  decide

/-- Claim C4 (confirmed): the bucket key is the deterministic pure function
of the stored prefix, name and `size_mod` described by the spec —
`<prefix>.size.<s>` with `s` the MD5-derived hash of the key prefix reduced
modulo `10^size_mod` and divided by 1000 exactly when greater than 1000.
Determinism is immediate because `bucketKey` is a pure function of its
arguments. -/
theorem bucketKey_eq_spec (md5int : String → Nat) (pfx name : String)
    (sizeMod : Nat) :
    bucketKey md5int pfx name sizeMod = specBucketKey md5int pfx name sizeMod :=
  rfl

/-- Claim C7 (code bug): the six overridden per-key TTL methods of
`RedisDict` do fail fast with `AttributeError` and leave the state untouched,
but the inherited millisecond variant `psetex` does not: at the failing input
it silently succeeds, stores the element with a TTL, and leaves the bucket
counter absent (still 0) — the desynchronization the claim says is
prevented. -/
theorem redisDict_ttl_methods_and_psetex :
    rdTtl emptyDict "k" =
      .error "AttributeError: RedisDict does not support ttl" ∧
    rdPttl emptyDict "k" =
      .error "AttributeError: RedisDict does not support pttl" ∧
    rdSetTtl emptyDict "k" 10 =
      .error "AttributeError: RedisDict does not support set_ttl" ∧
    rdSetPttl emptyDict "k" 10 =
      .error "AttributeError: RedisDict does not support set_pttl" ∧
    rdExpireAt emptyDict "k" 1900000000 =
      .error "AttributeError: RedisDict does not support expire_at" ∧
    rdSetex emptyDict "k" "v" 10 =
      .error "AttributeError: RedisDict does not support setex" ∧
    ∃ st pt, rdPsetex emptyDict [] "k" "v" 1000 = .ok (st, pt) ∧
      "k" ∈ st.keys ∧ st.bucket = none ∧ dictSize st = 0 ∧ pt = [("k", 1000)] := by
  refine ⟨rfl, rfl, rfl, rfl, rfl, rfl, _, _, rfl, ?_, rfl, rfl, rfl⟩
  exact Finset.mem_insert_self _ _

/-- Claim C8 (corrected, amended): `_loads` does *not* fall back to the raw
decoded value for every unparseable string; the fallback fires exactly when
the serializer raises an unpickling error on a string that `isdigit()`s
(the increment/decrement bypass output), and any other unpickling failure is
re-raised. -/
theorem loadsSer_unpickling_fallback (sl : String → Except SerErr RVal)
    (s : String) (h : sl s = .error .unpicklingErr) :
    loadsSer sl s =
      if pyIsdigit s then .ok (.rstr s) else .error .unpicklingErr := by
  unfold loadsSer
  rw [h]

/-- Witness for `loadsSer_unpickling_fallback`: the pickle-model serializer
cannot parse the raw numeric string `"42"` written by `incr`, and `_loads`
returns the raw string instead of raising. -/
theorem loadsSer_unpickling_fallback_witness :
    pickleModelLoads "42" = .error .unpicklingErr ∧
    loadsSer pickleModelLoads "42" = .ok (.rstr "42") := by
  refine ⟨by decide, ?_⟩
  rw [loadsSer_unpickling_fallback pickleModelLoads "42" (by decide)]
  decide

/-- Counterexample for claim C8 as stated: the stored string `"abc"` is one
the configured (pickle-model) serializer cannot parse, yet `_loads` raises
the unpickling error instead of returning the raw decoded value `"abc"`. -/
theorem loadsSer_not_total_fallback :
    loadsSer pickleModelLoads "abc" = .error .unpicklingErr ∧
    loadsSer pickleModelLoads "abc" ≠ .ok (.rstr "abc") := by
  decide

/-- Claim C9 (code bug): default namespaces are not pairwise distinct across
container kinds — `RedisDefaultHash.__init__` defaults to `prefix="rs:dict"`,
the same namespace as `RedisDict` (its own docstring displays
`rs:hash:practice`), so a default-hash and a dict that share a name share a
key prefix. -/
theorem defaultPfx_collision :
    ContainerKind.defaulthash ≠ ContainerKind.dict ∧
    defaultPfx .defaulthash = defaultPfx .dict ∧
    keyPfx (defaultPfx .defaulthash) "sessions" =
      keyPfx (defaultPfx .dict) "sessions" := by
  refine ⟨by decide, rfl, rfl⟩

/-- Claim C10 (confirmed): on an empty `RedisList`, `pop()` (RPOP) and
`pop(0)` (LPOP) both return `None` and leave the list empty, raising no
exception — for serialized and unserialized instances alike. -/
theorem listPop_empty (serialized : Bool) (sentinel : String) :
    listPop serialized sentinel [] none = .ok (none, []) ∧
    listPop serialized sentinel [] (some 0) = .ok (none, []) :=
  ⟨rfl, rfl⟩

/-! ## Helper lemmas for the RedisDict counter -/

lemma dictInv_applyOp (s : DictState) (op : DOp) (hwf : WFOp op)
    (hinv : DictInv s) : DictInv (applyOp s op) := by
  cases op with
  | set k v =>
    by_cases hk : k ∈ s.keys
    · simp only [applyOp, DictInv, if_pos hk]
      rw [Finset.insert_eq_self.mpr hk]
      exact hinv
    · simp only [applyOp, DictInv, if_neg hk, hincrby, Option.getD_some]
      rw [Finset.card_insert_of_not_mem hk, hinv]
      push_cast
      ring
  | del k =>
    by_cases hk : k ∈ s.keys
    · simp only [applyOp, DictInv, if_pos hk, hincrby, Option.getD_some]
      rw [Finset.card_erase_of_mem hk, hinv]
      have hcard : 1 ≤ s.keys.card := Finset.card_pos.mpr ⟨k, hk⟩
      rw [Nat.cast_sub hcard]
      ring
    · simp only [applyOp, DictInv, if_neg hk]
      rw [Finset.erase_eq_of_not_mem hk]
      exact hinv
  | upd kvs =>
    by_cases hemp : kvs.isEmpty
    · simp only [applyOp, if_pos hemp]
      exact hinv
    · simp only [applyOp, if_neg hemp, DictInv, hincrby, Option.getD_some]
      have hnd : (kvs.map Prod.fst).Nodup := hwf
      have hcardT : (kvs.map Prod.fst).toFinset.card = kvs.length := by
        rw [List.toFinset_card_of_nodup hnd, List.length_map]
      have hcount :
          ((kvs.map Prod.fst).countP fun k => decide (k ∈ s.keys)) =
            (s.keys ∩ (kvs.map Prod.fst).toFinset).card := by
        rw [List.countP_eq_length_filter,
          ← List.toFinset_card_of_nodup (hnd.filter _), List.toFinset_filter]
        simp only [decide_eq_true_eq]
        rw [Finset.filter_mem_eq_inter, Finset.inter_comm]
      have hunion :
          (s.keys ∪ (kvs.map Prod.fst).toFinset).card +
              (s.keys ∩ (kvs.map Prod.fst).toFinset).card =
            s.keys.card + (kvs.map Prod.fst).toFinset.card :=
        Finset.card_union_add_card_inter _ _
      rw [hinv, hcount]
      omega

lemma dictInv_runOps (ops : List DOp) (s : DictState)
    (hwf : ∀ op ∈ ops, WFOp op) (hinv : DictInv s) : DictInv (runOps ops s) := by
  induction ops generalizing s with
  | nil => exact hinv
  | cons op ops ih =>
    simp only [runOps, List.foldl_cons]
    exact ih (applyOp s op) (fun o ho => hwf o (List.mem_cons_of_mem _ ho))
      (dictInv_applyOp s op (hwf op (List.mem_cons_self _ _)) hinv)

lemma decide_mem_keys_applyOp (s : DictState) (op : DOp) (k : String) :
    decide (k ∈ (applyOp s op).keys) = presStep k (decide (k ∈ s.keys)) op := by
  cases op with
  | set k' v =>
    by_cases h : k' = k
    · subst h
      simp [applyOp, presStep]
    · have hkk : ¬(k = k') := fun hh => h hh.symm
      simp [applyOp, presStep, h, Finset.mem_insert, hkk]
  | del k' =>
    by_cases h : k' = k
    · subst h
      simp [applyOp, presStep]
    · have hkk : ¬(k = k') := fun hh => h hh.symm
      simp [applyOp, presStep, h, Finset.mem_erase, hkk]
  | upd kvs =>
    by_cases hemp : kvs.isEmpty
    · have hnil : kvs = [] := by simpa using hemp
      subst hnil
      simp [applyOp, presStep]
    · by_cases hmem : k ∈ kvs.map Prod.fst
      · simp [applyOp, presStep, hemp, hmem, Finset.mem_union, List.mem_toFinset]
      · simp [applyOp, presStep, hemp, hmem, Finset.mem_union, List.mem_toFinset]

lemma decide_mem_keys_runOps (ops : List DOp) :
    ∀ (s : DictState) (k : String),
      decide (k ∈ (runOps ops s).keys) =
        ops.foldl (presStep k) (decide (k ∈ s.keys)) := by
  induction ops with
  | nil =>
    intro s k
    simp [runOps]
  | cons op ops ih =>
    intro s k
    simp only [runOps, List.foldl_cons] at ih ⊢
    rw [← decide_mem_keys_applyOp]
    exact ih (applyOp s op) k

lemma foldl_presStep_touched (ops : List DOp) (k : String) :
    ∀ b : Bool, ops.foldl (presStep k) b = true → b = true ∨ k ∈ touched ops := by
  induction ops with
  | nil =>
    intro b h
    exact .inl h
  | cons op ops ih =>
    intro b h
    simp only [List.foldl_cons] at h
    rcases ih _ h with h1 | h1
    · cases op with
      | set k' v =>
        simp only [presStep] at h1
        by_cases hk : k' = k
        · subst hk
          exact .inr (by simp [touched, opKeys])
        · rw [if_neg hk] at h1
          exact .inl h1
      | del k' =>
        simp only [presStep] at h1
        by_cases hk : k' = k
        · rw [if_pos hk] at h1
          exact absurd h1 (by simp)
        · rw [if_neg hk] at h1
          exact .inl h1
      | upd kvs =>
        simp only [presStep] at h1
        by_cases hk : k ∈ kvs.map Prod.fst
        · refine .inr ?_
          simp [touched, opKeys, Finset.mem_union, List.mem_toFinset, hk]
        · rw [if_neg hk] at h1
          exact .inl h1
    · refine .inr ?_
      simp only [touched, Finset.mem_union]
      exact .inr h1

/-- Claim C1 (confirmed): starting from an empty `RedisDict` (no element
keys, bucket field absent), for every sequence of `__setitem__`,
`__delitem__` and bulk `update` operations (each update fed a mapping with
distinct keys, as a Python dict guarantees) and no other writers, the value
`len()` reads from the bucket hash field equals the number of keys whose most
recent operation was a set and that were not subsequently deleted. -/
theorem redisDict_len (ops : List DOp) (hwf : ∀ op ∈ ops, WFOp op) :
    dictSize (runOps ops emptyDict) =
      (((touched ops).filter fun k => specPresent ops k = true).card : Int) := by
  have hinv : DictInv (runOps ops emptyDict) :=
    dictInv_runOps ops emptyDict hwf (by simp [DictInv, emptyDict])
  have hd0 : ∀ k : String, decide (k ∈ emptyDict.keys) = false := by
    intro k
    simp [emptyDict]
  have hkeys : (runOps ops emptyDict).keys =
      (touched ops).filter fun k => specPresent ops k = true := by
    ext k
    rw [Finset.mem_filter]
    constructor
    · intro hk
      have hd : decide (k ∈ (runOps ops emptyDict).keys) = true :=
        decide_eq_true hk
      rw [decide_mem_keys_runOps, hd0 k] at hd
      refine ⟨?_, hd⟩
      rcases foldl_presStep_touched ops k false hd with h | h
      · exact absurd h (by simp)
      · exact h
    · rintro ⟨htouch, hspec⟩
      have hdec : decide (k ∈ (runOps ops emptyDict).keys) = true := by
        rw [decide_mem_keys_runOps, hd0 k]
        exact hspec
      exact of_decide_eq_true hdec
  have hsz : dictSize (runOps ops emptyDict) =
      (runOps ops emptyDict).bucket.getD 0 := rfl
  rw [hsz, hinv, hkeys]

/-- Witness for `redisDict_len`: the spec scenario — `set("a",1)`,
`set("b",2)`, `delete("a")` leaves `len() == 1`. -/
theorem redisDict_len_witness :
    (∀ op ∈ [DOp.set "a" "1", DOp.set "b" "2", DOp.del "a"], WFOp op) ∧
    dictSize (runOps [DOp.set "a" "1", DOp.set "b" "2", DOp.del "a"] emptyDict) =
      (((touched [DOp.set "a" "1", DOp.set "b" "2", DOp.del "a"]).filter
          fun k =>
            specPresent [DOp.set "a" "1", DOp.set "b" "2", DOp.del "a"] k =
              true).card : Int) ∧
    dictSize (runOps [DOp.set "a" "1", DOp.set "b" "2", DOp.del "a"] emptyDict) =
      1 := by
  have hwf : ∀ op ∈ [DOp.set "a" "1", DOp.set "b" "2", DOp.del "a"], WFOp op := by
    intro op hop
    simp only [List.mem_cons, List.not_mem_nil, or_false] at hop
    rcases hop with rfl | rfl | rfl <;> trivial
  refine ⟨hwf, redisDict_len _ hwf, by decide⟩

/-- Claim C2 (corrected, amended): `insert(i, v)` followed by reads of `i`
and `i+1` behaves as claimed for every valid `i ∈ [0, len)` *provided* the
new value round-trips through the write encoding and the prior occupant's
deserialized value client-encodes back to its stored raw form — which always
holds for unserialized lists of strings and for serialized integer elements,
but fails for serialized string elements, whose stored form the sentinel
pipeline strips of its JSON quoting (see the counterexample).  The sentinel
(`gen_rand_str` output) is assumed fresh for the list, as the source relies
on. -/
theorem redisList_insert_get (s : Bool) (sentinel : String) (l : List String)
    (i : Nat) (v item : RVal) (raw : String)
    (hi : i < l.length)
    (hraw : lindex l i = some raw)
    (hitem : loadsL s raw = some item)
    (hreenc : clientEnc item = raw)
    (hv : loadsL s (encW s v) = some v)
    (hf1 : encW s (.rstr sentinel) ∉ l)
    (hf2 : encW s (.rstr sentinel) ≠ encW s v)
    (hf3 : encW s (.rstr sentinel) ≠ clientEnc item) :
    insertOp s sentinel l i v =
      .ok (l.take i ++ encW s v :: raw :: l.drop (i + 1)) ∧
    getAt s (l.take i ++ encW s v :: raw :: l.drop (i + 1)) i = .ok (some v) ∧
    getAt s (l.take i ++ encW s v :: raw :: l.drop (i + 1)) ((i : Int) + 1) =
      .ok (some item) := by
  have hpA : encW s (.rstr sentinel) ∉ l.take i :=
    fun h => hf1 (List.take_subset _ _ h)
  have hpB : encW s (.rstr sentinel) ∉ l.drop (i + 1) :=
    fun h => hf1 (List.drop_subset _ _ h)
  have hlen_take : (l.take i).length = i := by
    rw [List.length_take]
    omega
  refine ⟨?_, ?_, ?_⟩
  · unfold insertOp
    simp only [hraw, hitem, lset_nat l i _ hi]
    rw [List.set_eq_take_cons_drop _ hi]
    rw [linsertBefore_append _ _ _ _ hpA]
    have hassoc :
        l.take i ++ encW s v :: encW s (.rstr sentinel) :: l.drop (i + 1) =
          (l.take i ++ [encW s v]) ++
            encW s (.rstr sentinel) :: l.drop (i + 1) := by
      simp
    rw [hassoc]
    rw [linsertBefore_append _ _ _ _ (by
      intro h
      rcases List.mem_append.mp h with h1 | h1
      · exact hpA h1
      · exact hf2 (by simpa using h1))]
    have hshape :
        (l.take i ++ [encW s v]) ++
            clientEnc item :: encW s (.rstr sentinel) :: l.drop (i + 1) =
          l.take i ++ encW s v :: clientEnc item ::
            encW s (.rstr sentinel) :: l.drop (i + 1) := by
      simp
    rw [hshape,
      lremAll_shape _ _ _ _ _ hpA hpB (fun h => hf2 h.symm)
        (fun h => hf3 h.symm),
      hreenc]
  · unfold getAt
    rw [lindex_nat]
    rw [List.get?_append_right (by omega)]
    rw [hlen_take, Nat.sub_self]
    simp only [List.get?]
    rw [hv]
  · unfold getAt
    have hcast : ((i : Int) + 1) = ((i + 1 : Nat) : Int) := by push_cast; ring
    rw [hcast, lindex_nat]
    rw [List.get?_append_right (by omega)]
    rw [hlen_take]
    have : i + 1 - i = 1 := by omega
    rw [this]
    simp only [List.get?]
    rw [hitem]

/-- Witness for `redisList_insert_get`: a serialized list `[1, 2]`,
`insert(0, 9)`: reading index 0 gives 9 and index 1 gives the shifted 1. -/
theorem redisList_insert_get_witness :
    insertOp true "u" ["1", "2"] 0 (.rint 9) = .ok ["9", "1", "2"] ∧
    getAt true ["9", "1", "2"] 0 = .ok (some (.rint 9)) ∧
    getAt true ["9", "1", "2"] (((0 : Nat) : Int) + 1) = .ok (some (.rint 1)) ∧
    True :=
  ⟨(redisList_insert_get true "u" ["1", "2"] 0 (.rint 9) (.rint 1) "1"
      (by decide) (by decide) (by decide) (by decide) (by decide) (by decide)
      (by decide) (by decide)).1,
   (redisList_insert_get true "u" ["1", "2"] 0 (.rint 9) (.rint 1) "1"
      (by decide) (by decide) (by decide) (by decide) (by decide) (by decide)
      (by decide) (by decide)).2.1,
   (redisList_insert_get true "u" ["1", "2"] 0 (.rint 9) (.rint 1) "1"
      (by decide) (by decide) (by decide) (by decide) (by decide) (by decide)
      (by decide) (by decide)).2.2,
   trivial⟩

/-- Counterexample for claim C2 as stated: on a serialized list holding the
strings `"a"`, `"b"` (stored as JSON texts), `insert(0, "x")` re-inserts the
prior occupant *deserialized*, so the stored cell at index 1 is the unquoted
`a`; reading index 1 then raises a serialization error instead of returning
the element previously at index 0. -/
theorem redisList_insert_get_counterexample :
    insertOp true "u" ["\"a\"", "\"b\""] 0 (.rstr "x") =
      .ok ["\"x\"", "a", "\"b\""] ∧
    getAt true ["\"x\"", "a", "\"b\""] 1 = .error "ValueError" ∧
    getAt true ["\"x\"", "a", "\"b\""] 1 ≠ .ok (some (.rstr "a")) := by
  decide

/-! ## Helper lemmas for sorted-set slicing -/

lemma drop_take_eq_nil {l : List α} {u w : Int}
    (h : w ≤ 0 ∨ (l.length : Int) ≤ u) :
    (l.drop u.toNat).take w.toNat = [] := by
  rcases h with h | h
  · rw [show w.toNat = 0 from by omega, List.take_zero]
  · rw [List.drop_eq_nil_of_le (by omega), List.take_nil]

/-- The server-side clamping of `zrange(start, stop-1)` agrees with the
Python slice `l[start:stop]` whenever `stop` is not the literal 0 (which the
falsy test in `__getitem__` conflates with "to the end"). -/
lemma redisRange_eq_pySlice (l : List α) (a b : Option Int) (hb : b ≠ some 0) :
    redisRange l (a.getD 0) (sliceStop b) = pySlice l a b := by
  rcases b with _ | y
  · rcases a with _ | x <;>
    · simp only [redisRange, pySlice, Option.getD, sliceStop]
      split_ifs <;>
        first
          | rfl
          | (exact (drop_take_eq_nil (by omega)).symm)
          | (exact drop_take_eq_nil (by omega))
          | (congr 1 <;> first | omega | (congr 1 <;> omega))
          | (exfalso; omega)
  · have hy : y ≠ 0 := fun h => hb (by rw [h])
    rcases a with _ | x <;>
    · simp only [redisRange, pySlice, Option.getD, sliceStop, if_neg hy]
      split_ifs <;>
        first
          | rfl
          | (exact (drop_take_eq_nil (by omega)).symm)
          | (exact drop_take_eq_nil (by omega))
          | (congr 1 <;> first | omega | (congr 1 <;> omega))
          | (exfalso; omega)

lemma zscore_of_mem (z : List (String × Int)) (m : String) (sc : Int)
    (hnd : (z.map Prod.fst).Nodup) (hm : (m, sc) ∈ z) :
    zscore z m = some sc := by
  induction z with
  | nil => cases hm
  | cons p ps ih =>
    rcases List.mem_cons.mp hm with heq | hmem
    · subst heq
      simp [zscore, List.find?]
    · have hp : ¬(p.1 = m) := by
        intro h
        have : m ∈ ps.map Prod.fst := by
          have := List.mem_map_of_mem Prod.fst hmem
          simpa using this
        exact (List.nodup_cons.mp (by simpa using hnd)).1 (h ▸ this)
      have hrec := ih (by simpa using (List.nodup_cons.mp (by simpa using hnd)).2) hmem
      simp only [zscore, List.find?] at hrec ⊢
      simp only [decide_eq_false hp]
      exact hrec

lemma zscore_of_not_mem (z : List (String × Int)) (m : String)
    (hm : m ∉ z.map Prod.fst) : zscore z m = none := by
  unfold zscore
  rw [List.find?_eq_none.mpr]
  · rfl
  · intro p hp
    simp only [decide_eq_true_eq]
    intro h
    exact hm (h ▸ List.mem_map_of_mem Prod.fst hp)

/-- Claim C6 (corrected, amended): `RedisSortedSet.__getitem__` dispatches on
the argument's shape.  A slice returns the members of the corresponding rank
range *provided its stop is not the literal 0* (the falsy test conflates a 0
stop with "to the end of the set" — see the counterexample); a non-slice
argument returns that member's cast score, raising `KeyError` when the member
is absent. -/
theorem sortedSet_getitem_dispatch (rev : Bool) (z : List (String × Int))
    (a b : Option Int) (m : String) (sc : Int)
    (hb : b ≠ some 0) (hnd : (z.map Prod.fst).Nodup) :
    ssGetItem rev z (.zslice a b) =
      .ok (.members (pySlice (rankedMembers rev z) a b)) ∧
    ((m, sc) ∈ z → ssGetItem rev z (.zmember m) = .ok (.score sc)) ∧
    (m ∉ z.map Prod.fst → ssGetItem rev z (.zmember m) = .error "KeyError") := by
  refine ⟨?_, ?_, ?_⟩
  · simp only [ssGetItem]
    rw [redisRange_eq_pySlice (rankedMembers rev z) a b hb]
  · intro hm
    simp only [ssGetItem, zscore_of_mem z m sc hnd hm]
  · intro hm
    simp only [ssGetItem, zscore_of_not_mem z m hm]

/-- Witness for `sortedSet_getitem_dispatch`: the spec scenario
`{a:1, b:2, c:3}` — the slice `[0:2]` returns the two lowest-ranked members
`["a","b"]`, and member access `"b"` returns its score 2. -/
theorem sortedSet_getitem_dispatch_witness :
    (some 2 ≠ some 0) ∧
    ssGetItem false [("a", 1), ("b", 2), ("c", 3)]
        (.zslice (some 0) (some 2)) =
      .ok (.members (pySlice
        (rankedMembers false [("a", 1), ("b", 2), ("c", 3)])
        (some 0) (some 2))) ∧
    ssGetItem false [("a", 1), ("b", 2), ("c", 3)] (.zmember "b") =
      .ok (.score 2) ∧
    ssGetItem false [("a", 1), ("b", 2), ("c", 3)]
        (.zslice (some 0) (some 2)) =
      .ok (.members ["a", "b"]) := by
  refine ⟨by decide,
    (sortedSet_getitem_dispatch false [("a", 1), ("b", 2), ("c", 3)]
      (some 0) (some 2) "b" 2 (by decide) (by decide)).1,
    (sortedSet_getitem_dispatch false [("a", 1), ("b", 2), ("c", 3)]
      (some 0) (some 2) "b" 2 (by decide) (by decide)).2.1 (by decide),
    by decide⟩

/-- Counterexample for claim C6 as stated: on `{a:1, b:2, c:3}` the slice
`[0:0]` denotes an empty rank range, but `__getitem__` returns every
member. -/
theorem sortedSet_getitem_counterexample :
    ssGetItem false [("a", 1), ("b", 2), ("c", 3)]
        (.zslice (some 0) (some 0)) =
      .ok (.members ["a", "b", "c"]) ∧
    pySlice (rankedMembers false [("a", 1), ("b", 2), ("c", 3)])
        (some 0) (some 0) = ([] : List String) := by
  decide

/-! ## Helper lemmas for `RedisList.reverse` -/

/-- An element whose stored form decodes, and whose decoded value re-encodes
to something that decodes back to the same value — every element a
`RedisList` itself wrote satisfies this (raw strings when unserialized, JSON
texts when serialized). -/
def Stable (s : Bool) (x : String) : Prop :=
  ∃ v, loadsL s x = some v ∧ loadsL s (encW s v) = some v

lemma optMapM_append (f : α → Option β) (xs ys : List α) :
    optMapM f (xs ++ ys) =
      match optMapM f xs, optMapM f ys with
      | some a, some b => some (a ++ b)
      | _, _ => none := by
  induction xs with
  | nil =>
    simp only [List.nil_append, optMapM]
    cases optMapM f ys <;> rfl
  | cons x xs ih =>
    cases hfx : f x <;> cases hxs : optMapM f xs <;> cases hys : optMapM f ys <;>
      simp [optMapM, hfx, hxs, hys, ih]

lemma optMapM_reenc (s : Bool) :
    ∀ c : List String, (∀ x ∈ c, Stable s x) →
      ∃ out, optMapM (fun x => (loadsL s x).map (encW s)) c = some out ∧
        out.map (loadsL s) = c.map (loadsL s) ∧
        ∀ y ∈ out, (loadsL s y).map (encW s) = some y := by
  intro c
  induction c with
  | nil =>
    intro _
    exact ⟨[], rfl, rfl, by intro y hy; cases hy⟩
  | cons x xs ih =>
    intro h
    obtain ⟨v, hv1, hv2⟩ := h x (List.mem_cons_self _ _)
    obtain ⟨out, ho1, ho2, ho3⟩ := ih fun y hy => h y (List.mem_cons_of_mem _ hy)
    refine ⟨encW s v :: out, ?_, ?_, ?_⟩
    · simp [optMapM, hv1, ho1]
    · simp only [List.map_cons, ho2, hv1, hv2]
    · intro y hy
      rcases List.mem_cons.mp hy with rfl | hy2
      · rw [hv2]
        rfl
      · exact ho3 y hy2

lemma optMapM_fixed (s : Bool) :
    ∀ c : List String, (∀ y ∈ c, (loadsL s y).map (encW s) = some y) →
      optMapM (fun x => (loadsL s x).map (encW s)) c = some c := by
  intro c
  induction c with
  | nil => intro _; rfl
  | cons x xs ih =>
    intro h
    simp [optMapM, h x (List.mem_cons_self _ _),
      ih fun y hy => h y (List.mem_cons_of_mem _ hy)]

set_option maxRecDepth 8000 in
/-- The window `lrange(-(1000*(j+1)), -(1000*j)-1)` of iteration `j` of the
reverse loop is exactly the `j`-th 1000-element chunk counted from the tail
(clamped at the head). -/
lemma reverse_chunk (l : List String) (j : Nat) :
    redisRange l (-(1000 * ((j : Int) + 1))) (-(1000 * (j : Int)) - 1) =
      (l.take (l.length - 1000 * j)).drop (l.length - 1000 * j - 1000) := by
  simp only [redisRange]
  have hs0 : -(1000 * ((j : Int) + 1)) < 0 := by omega
  have he0 : -(1000 * (j : Int)) - 1 < 0 := by omega
  rw [if_pos hs0, if_pos he0]
  have he1 : ¬((l.length : Int) + (-(1000 * (j : Int)) - 1) ≥
      (l.length : Int)) := by omega
  rw [if_neg he1]
  by_cases hs0neg : (l.length : Int) + -(1000 * ((j : Int) + 1)) < 0 <;>
    [rw [if_pos hs0neg]; rw [if_neg hs0neg]] <;>
    by_cases hm : l.length ≤ 1000 * j
  · rw [if_pos (Or.inl (by omega))]
    rw [show l.length - 1000 * j = 0 from by omega, List.take_zero,
      List.drop_nil]
  · rw [if_neg (by omega)]
    rw [List.drop_take]
    congr 1
    · omega
    · congr 1
      omega
  · rw [if_pos (Or.inl (by omega))]
    rw [show l.length - 1000 * j = 0 from by omega, List.take_zero,
      List.drop_nil]
  · rw [if_neg (by omega)]
    rw [List.drop_take]
    congr 1
    · omega
    · congr 1
      omega

lemma revLoop_eq (s : Bool) (l : List String) :
    ∀ (fuel j : Nat), l.length ≤ 1000 * (j + fuel) →
      revLoop s l (-(1000 * ((j : Int) + 1))) (-(1000 * (j : Int)) - 1) fuel =
        optMapM (fun x => (loadsL s x).map (encW s))
          ((l.take (l.length - 1000 * j)).reverse) := by
  intro fuel
  induction fuel with
  | zero =>
    intro j h
    rw [show l.length - 1000 * j = 0 from by omega]
    simp [revLoop, optMapM]
  | succ fuel ih =>
    intro j h
    have hc := reverse_chunk l j
    by_cases hm : l.length - 1000 * j = 0
    · rw [hm] at hc
      simp only [List.take_zero, List.drop_nil] at hc
      simp [revLoop, hc, hm, optMapM]
    · have hlenc :
          ((l.take (l.length - 1000 * j)).drop
            (l.length - 1000 * j - 1000)).length =
            (l.length - 1000 * j) - (l.length - 1000 * j - 1000) := by
        rw [List.length_drop, List.length_take]
        omega
      have hne :
          (l.take (l.length - 1000 * j)).drop (l.length - 1000 * j - 1000) ≠
            [] := by
        intro hnil
        rw [hnil] at hlenc
        simp at hlenc
        omega
      have harith1 : -(1000 * ((j : Int) + 1)) - 1000 =
          -(1000 * (((j + 1 : Nat) : Int) + 1)) := by
        push_cast
        ring
      have harith2 : -(1000 * (j : Int)) - 1 - 1000 =
          -(1000 * ((j + 1 : Nat) : Int)) - 1 := by
        push_cast
        ring
      have hsub : l.length - 1000 * (j + 1) = l.length - 1000 * j - 1000 := by
        omega
      have hsplit : l.take (l.length - 1000 * j) =
          l.take (l.length - 1000 * j - 1000) ++
            (l.take (l.length - 1000 * j)).drop
              (l.length - 1000 * j - 1000) := by
        conv_lhs =>
          rw [← List.take_append_drop (l.length - 1000 * j - 1000)
            (l.take (l.length - 1000 * j))]
        rw [List.take_take, Nat.min_eq_left (by omega)]
      simp only [revLoop]
      rw [hc, if_neg (by simpa [List.isEmpty_iff] using hne)]
      rw [harith1, harith2, ih (j + 1) (by omega), hsub]
      conv_rhs => rw [hsplit]
      rw [List.reverse_append, optMapM_append]
      simp only [pageOut]
      cases optMapM (fun x => (loadsL s x).map (encW s))
          (((l.take (l.length - 1000 * j)).drop
            (l.length - 1000 * j - 1000)).reverse) <;>
        cases optMapM (fun x => (loadsL s x).map (encW s))
            ((l.take (l.length - 1000 * j - 1000)).reverse) <;>
          rfl

/-- Counterexample for claim C5 as stated: on the *empty* list the reverse
loop never pushes a page, the temporary list key is never created, and the
final RENAME raises `no such key` — `reverse()` is not even executable there,
let alone an involution. -/
theorem redisList_reverse_counterexample :
    reverseOp true [] = .error "ResponseError: no such key" ∧
    reverseOp false [] = .error "ResponseError: no such key" := by
  decide

/-- Claim C5 (corrected, amended): for every *non-empty* finite list whose
elements decode and re-encode stably (true of everything the list itself
wrote, serialized or not, at any length including non-multiples of the
1000-element page), `reverse()` succeeds and running it twice restores the
original order at the decoded-value level. -/
theorem redisList_reverse_involution (s : Bool) (l : List String)
    (hne : l ≠ []) (h : ∀ x ∈ l, Stable s x) :
    ∃ l1 l2, reverseOp s l = .ok l1 ∧ reverseOp s l1 = .ok l2 ∧
      l2.map (loadsL s) = l.map (loadsL s) := by
  obtain ⟨out, ho1, ho2, ho3⟩ :=
    optMapM_reenc s l.reverse fun x hx => h x (List.mem_reverse.mp hx)
  have hlen : out.length = l.length := by
    have hl := congrArg List.length ho2
    simpa using hl
  have houtne : out ≠ [] := by
    intro hnil
    rw [hnil] at hlen
    exact hne (List.length_eq_zero.mp hlen.symm)
  have hstart : (-1000 : Int) = -(1000 * (((0 : Nat) : Int) + 1)) := by
    norm_num
  have hstop : (-1 : Int) = -(1000 * ((0 : Nat) : Int)) - 1 := by
    norm_num
  have h1 : reverseOp s l = .ok out := by
    unfold reverseOp
    rw [hstart, hstop, revLoop_eq s l (l.length / 1000 + 2) 0 (by omega)]
    simp only [Nat.mul_zero, Nat.sub_zero, List.take_length]
    simp only [ho1]
    rw [if_neg (by simpa [List.isEmpty_iff] using houtne)]
  have hrevne : out.reverse ≠ [] := by
    simpa using houtne
  have h2 : reverseOp s out = .ok out.reverse := by
    unfold reverseOp
    rw [hstart, hstop, revLoop_eq s out (out.length / 1000 + 2) 0 (by omega)]
    simp only [Nat.mul_zero, Nat.sub_zero, List.take_length]
    simp only [optMapM_fixed s out.reverse fun y hy =>
      ho3 y (List.mem_reverse.mp hy)]
    rw [if_neg (by simpa [List.isEmpty_iff] using hrevne)]
  refine ⟨out, out.reverse, h1, h2, ?_⟩
  calc out.reverse.map (loadsL s) = (out.map (loadsL s)).reverse :=
        List.map_reverse _ _
    _ = ((l.reverse).map (loadsL s)).reverse := by rw [ho2]
    _ = ((l.map (loadsL s)).reverse).reverse := by rw [List.map_reverse]
    _ = l.map (loadsL s) := List.reverse_reverse _

/-- Witness for `redisList_reverse_involution`: a serialized two-element list
holding the integer 1 and the string `"a"`. -/
theorem redisList_reverse_involution_witness :
    (["1", "\"a\""] ≠ ([] : List String)) ∧
    ∃ l1 l2, reverseOp true ["1", "\"a\""] = .ok l1 ∧
      reverseOp true l1 = .ok l2 ∧
      l2.map (loadsL true) = ["1", "\"a\""].map (loadsL true) := by
  refine ⟨by decide,
    redisList_reverse_involution true ["1", "\"a\""] (by decide) ?_⟩
  intro x hx
  simp only [List.mem_cons, List.not_mem_nil, or_false] at hx
  rcases hx with rfl | rfl
  · exact ⟨.rint 1, by decide, by decide⟩
  · exact ⟨.rstr "a", by decide, by decide⟩

end RedisStructures
